import Mathlib

/-!
Verification development for the Intellivest stock-sentiment system.

Each section embeds one component of the source into Lean and proves the
specification claims about it:

* Sentiment Aggregator — `src/src/analysis/sentiment_analyzer.py`,
  `SentimentAnalyzer._aggregate_sentiment_by_symbol`
* Stock Ranker — `src/src/analysis/stock_ranker.py`, `StockRanker`
* Backtester — `src/src/analysis/backtester.py`,
  `SentimentBacktester.calculate_sentiment_accuracy`
* Price analyzer — `src/sentiment_price_analyzer.py`,
  `SentimentPriceAnalyzer._correlate_sentiment_with_prices` and
  `_combine_sentiment_data`

Python floats are modelled as exact rationals (`ℚ`) where the computations are
field arithmetic, and as reals (`ℝ`) where the source uses `math.exp` /
`math.log`.  Dates are modelled as integer day numbers.  `NaN` entries of a
pandas column are modelled as `Option` values (`none` = missing/NaN).
-/

namespace Intellivest

/-! ## Sentiment Aggregator

Embeds `SentimentAnalyzer._aggregate_sentiment_by_symbol`
(`src/src/analysis/sentiment_analyzer.py`, lines 220-258) together with the
per-item weight rule used inside its loop.  The per-symbol lists that the
function receives are built by `analyze_posts` / `analyze_tweets`: a Reddit
item carries `score` and `upvote_ratio`, a tweet carries `like_count` and
`retweet_count`; the dispatch in the loop is on which keys are present, which
we model with an inductive `Engagement`. -/

/-- Polarity scores as returned by `analyze_text`. -/
structure Polarity where
  positive : ℚ
  negative : ℚ
  neutral : ℚ
  compound : ℚ
deriving DecidableEq

/-- Engagement payload of one observation: a Reddit post (`score`,
`upvote_ratio`), a tweet (`like_count`, `retweet_count`), or neither
(the `else` branch of the weight dispatch, weight 1). -/
inductive Engagement where
  | reddit (score upvoteRatio : ℚ)
  | tweet (likeCount retweetCount : ℚ)
  | plain
deriving DecidableEq

/-- One entry of a `symbol_sentiments[symbol]` list. -/
structure SentimentItem where
  sentiment : Polarity
  engagement : Engagement
deriving DecidableEq

/-- The weight computed in the loop of `_aggregate_sentiment_by_symbol`:
`max(1, score * upvote_ratio)` for a Reddit post,
`max(1, like_count + retweet_count)` for a tweet, else `1`. -/
def itemWeight (it : SentimentItem) : ℚ :=
  match it.engagement with
  | .reddit score upvoteRatio => max 1 (score * upvoteRatio)
  | .tweet likeCount retweetCount => max 1 (likeCount + retweetCount)
  | .plain => 1

/-- The aggregate dict stored per symbol by `_aggregate_sentiment_by_symbol`. -/
structure SymbolAgg where
  positive : ℚ
  negative : ℚ
  compound : ℚ
  mentions : ℕ
  total_weight : ℚ
deriving DecidableEq

/-- `total_weight` accumulator of the loop. -/
def totalWeightOf (items : List SentimentItem) : ℚ :=
  (items.map itemWeight).sum

/-- One of the `weighted_*` accumulators of the loop (`f` selects the
polarity component). -/
def weightedSum (f : Polarity → ℚ) (items : List SentimentItem) : ℚ :=
  (items.map fun it => f it.sentiment * itemWeight it).sum

/-- The body of `_aggregate_sentiment_by_symbol` for one symbol's list:
skip empty lists (`if not sentiments: continue`), accumulate the weighted
sums, and emit the aggregate when `total_weight > 0`. -/
def aggregateGroup (items : List SentimentItem) : Option SymbolAgg :=
  if items.isEmpty then none
  else
    let tw := totalWeightOf items
    if 0 < tw then
      some { positive := weightedSum Polarity.positive items / tw
             negative := weightedSum Polarity.negative items / tw
             compound := weightedSum Polarity.compound items / tw
             mentions := items.length
             total_weight := tw }
    else none

/-- `_aggregate_sentiment_by_symbol`: the full mapping over the grouped
input (`symbol_sentiments` modelled as an association list). -/
def aggregateBySymbol (groups : List (String × List SentimentItem)) :
    List (String × SymbolAgg) :=
  groups.filterMap fun g => (aggregateGroup g.2).map fun agg => (g.1, agg)

/-- The spec's `engagement_weight` of an observation: "post score × upvote
ratio, or likes + retweets" (source-specific, no floor applied yet); an item
with no engagement payload has engagement weight 0. -/
def engagementWeight (it : SentimentItem) : ℚ :=
  match it.engagement with
  | .reddit score upvoteRatio => score * upvoteRatio
  | .tweet likeCount retweetCount => likeCount + retweetCount
  | .plain => 0

/-- The spec's per-observation weight `w = max(engagement_weight, 1)`. -/
def specWeight (it : SentimentItem) : ℚ :=
  max (engagementWeight it) 1

theorem itemWeight_eq_specWeight (it : SentimentItem) :
    itemWeight it = specWeight it := by
  cases h : it.engagement <;>
    simp [itemWeight, specWeight, engagementWeight, h, max_comm]

theorem one_le_itemWeight (it : SentimentItem) : 1 ≤ itemWeight it := by
  cases h : it.engagement <;> simp [itemWeight, h]

theorem length_le_totalWeight (items : List SentimentItem) :
    (items.length : ℚ) ≤ totalWeightOf items := by
  induction items with
  | nil => simp [totalWeightOf]
  | cons it rest ih =>
    simp only [totalWeightOf, List.map_cons, List.sum_cons, List.length_cons]
    have h1 := one_le_itemWeight it
    have h2 : (rest.length : ℚ) ≤ totalWeightOf rest := ih
    simp only [totalWeightOf] at h2
    push_cast
    linarith

theorem totalWeight_pos (items : List SentimentItem) (h : items ≠ []) :
    0 < totalWeightOf items := by
  have h1 := length_le_totalWeight items
  have h2 : 0 < items.length := List.length_pos.mpr h
  have h3 : (0 : ℚ) < (items.length : ℚ) := by exact_mod_cast h2
  linarith

/-- C4: for every nonempty (symbol, source) group the aggregator emits the
engagement-weighted mean of `positive`, `negative`, `compound` with
per-observation weight `w = max(engagement_weight, 1)`, and `mentions` equal
to the number of observations in the group (not the weight sum). -/
theorem aggregate_is_spec_weighted_mean (items : List SentimentItem)
    (h : items ≠ []) :
    aggregateGroup items =
      some { positive :=
               (items.map fun it => it.sentiment.positive * specWeight it).sum /
                 (items.map specWeight).sum
             negative :=
               (items.map fun it => it.sentiment.negative * specWeight it).sum /
                 (items.map specWeight).sum
             compound :=
               (items.map fun it => it.sentiment.compound * specWeight it).sum /
                 (items.map specWeight).sum
             mentions := items.length
             total_weight := (items.map specWeight).sum } := by
  have hfun : itemWeight = specWeight := funext itemWeight_eq_specWeight
  have hpos : 0 < totalWeightOf items := totalWeight_pos items h
  have hne : items.isEmpty = false := by
    cases items with
    | nil => exact absurd rfl h
    | cons a l => rfl
  simp only [aggregateGroup, hne, Bool.false_eq_true, if_false,
    weightedSum, totalWeightOf, hfun]
  rw [if_pos (by simpa [totalWeightOf, hfun] using hpos)]

/-- The spec's worked example: two observations with weights 3 and 1 and
compounds 0.6 and -0.2. -/
def exampleItemA : SentimentItem := ⟨⟨0, 0, 0, 3/5⟩, .reddit 6 (1/2)⟩

/-- Second observation of the worked example (unit weight). -/
def exampleItemB : SentimentItem := ⟨⟨0, 0, 0, -(1/5)⟩, .plain⟩

/-- Witness for C4: the worked example aggregates to mean compound
`(0.6*3 + -0.2*1)/4 = 0.4` with `mentions = 2`. -/
theorem aggregate_is_spec_weighted_mean_witness :
    aggregateGroup [exampleItemA, exampleItemB] =
      some { positive := 0, negative := 0, compound := 2/5, mentions := 2,
             total_weight := 4 } := by
  rw [aggregate_is_spec_weighted_mean [exampleItemA, exampleItemB] (by simp)]
  norm_num [specWeight, engagementWeight, exampleItemA, exampleItemB, max_def]

/-- An observation with negative engagement weight
(`score * upvote_ratio = -5 * 0.5 = -2.5 < 0`). -/
def badObservation : SentimentItem := ⟨⟨1/10, 0, 9/10, 1/10⟩, .reddit (-5) (1/2)⟩

/-- C6 counterexample: on an input containing an observation with
`engagement_weight < 0`, aggregation does not abort and produces normal
output — the negative weight is silently floored to 1 and the run completes,
contradicting the claim that `InvalidObservation` is raised and no output is
produced. -/
theorem aggregator_accepts_negative_weight :
    engagementWeight badObservation < 0 ∧
    aggregateBySymbol [("AAPL", [badObservation])] =
      [("AAPL", { positive := 1/10, negative := 0, compound := 1/10,
                  mentions := 1, total_weight := 1 })] := by
  norm_num [aggregateBySymbol, aggregateGroup, totalWeightOf, weightedSum,
    itemWeight, engagementWeight, badObservation, max_def, List.filterMap]

/-- C6 (amended): the aggregator performs no validation and never fails:
every observation — including one with negative engagement weight or an
out-of-range compound — is folded in with weight floored to at least 1, and
every nonempty group produces an aggregate. -/
theorem aggregator_never_rejects :
    (∀ it : SentimentItem, 1 ≤ itemWeight it) ∧
    (∀ items : List SentimentItem, items ≠ [] →
      (aggregateGroup items).isSome = true) := by
  refine ⟨one_le_itemWeight, fun items h => ?_⟩
  have hpos := totalWeight_pos items h
  have hne : items.isEmpty = false := by
    cases items with
    | nil => exact absurd rfl h
    | cons a l => rfl
  simp [aggregateGroup, hne, hpos]

/-- Witness for the amended C6 at the invalid observation. -/
theorem aggregator_never_rejects_witness :
    1 ≤ itemWeight badObservation ∧
    (aggregateGroup [badObservation]).isSome = true :=
  ⟨aggregator_never_rejects.1 badObservation,
   aggregator_never_rejects.2 [badObservation] (by simp)⟩

/-- C10: every aggregate emitted by `_aggregate_sentiment_by_symbol` has
`mentions ≥ 1` and `total_weight ≥ mentions` (each observation contributes
weight at least 1). -/
theorem aggregate_mentions_pos_weight_ge
    (groups : List (String × List SentimentItem)) (s : String) (agg : SymbolAgg)
    (h : (s, agg) ∈ aggregateBySymbol groups) :
    1 ≤ agg.mentions ∧ (agg.mentions : ℚ) ≤ agg.total_weight := by
  simp only [aggregateBySymbol, List.mem_filterMap] at h
  obtain ⟨g, hg, heq⟩ := h
  rw [Option.map_eq_some'] at heq
  obtain ⟨agg', hsome, hpair⟩ := heq
  obtain ⟨rfl, rfl⟩ : g.1 = s ∧ agg' = agg := by
    constructor <;> [exact congrArg Prod.fst hpair; exact congrArg Prod.snd hpair]
  by_cases hemp : g.2.isEmpty
  · simp [aggregateGroup, hemp] at hsome
  · have hne : g.2 ≠ [] := by
      cases h2 : g.2 with
      | nil => rw [h2] at hemp; exact absurd rfl hemp
      | cons a l => exact by simp
    have hpos := totalWeight_pos g.2 hne
    have hemp' : g.2.isEmpty = false := by
      cases h2 : g.2 with
      | nil => exact absurd (h2 ▸ rfl) hemp
      | cons a l => rfl
    simp only [aggregateGroup, hemp', Bool.false_eq_true, if_false,
      if_pos hpos, Option.some.injEq] at hsome
    subst hsome
    refine ⟨?_, ?_⟩
    · exact Nat.one_le_iff_ne_zero.mpr (by
        simpa [List.length_eq_zero] using hne)
    · exact length_le_totalWeight g.2

/-- The aggregate produced for the group `[exampleItemA]`. -/
def exampleAgg : SymbolAgg := ⟨0, 0, 3/5, 1, 3⟩

theorem aggregateBySymbol_TSLA :
    aggregateBySymbol [("TSLA", [exampleItemA])] = [("TSLA", exampleAgg)] := by
  norm_num [aggregateBySymbol, aggregateGroup, totalWeightOf, weightedSum,
    itemWeight, exampleItemA, exampleAgg, max_def, List.filterMap]

/-- Witness for C10 at a concrete run. -/
theorem aggregate_mentions_pos_weight_ge_witness :
    1 ≤ exampleAgg.mentions ∧ (exampleAgg.mentions : ℚ) ≤ exampleAgg.total_weight :=
  aggregate_mentions_pos_weight_ge [("TSLA", [exampleItemA])] "TSLA" exampleAgg
    (by rw [aggregateBySymbol_TSLA]; exact List.mem_singleton.mpr rfl)

/-! ## Backtester

Embeds `SentimentBacktester.calculate_sentiment_accuracy`
(`src/src/analysis/backtester.py`, lines 116-207).  A sentiment row carries
`symbol`, `date` (day number), `composite_sentiment` and `confidence_score`;
a price row carries the precomputed `Forward_1d/3d/7d_Return` columns where
`none` models a NaN cell.  Price rows are kept in pandas index order. -/

/-- One historical sentiment row as iterated by the backtester's loop. -/
structure SentRecord where
  symbol : String
  date : ℤ
  sentiment : ℚ
  confidence : ℚ
deriving DecidableEq

/-- One price-history row with its forward-return columns (`none` = NaN). -/
structure PriceRow where
  date : ℤ
  forward1 : Option ℚ
  forward3 : Option ℚ
  forward7 : Option ℚ
deriving DecidableEq

/-- The `price_data` dict: symbol to price rows, as an association list. -/
abbrev PriceData := List (String × List PriceRow)

/-- `if symbol not in price_data: continue` / `price_data[symbol]`. -/
def lookupPrices (pd : PriceData) (s : String) : Option (List PriceRow) :=
  (pd.find? fun p => p.1 = s).map Prod.snd

/-- `date_matches = symbol_prices.index.date >= sentiment_date` followed by
`symbol_prices.index[date_matches][0]`: the first row (in index order) whose
date is on or after the sentiment date. -/
def firstOnOrAfter (rows : List PriceRow) (d : ℤ) : Option PriceRow :=
  (rows.filter fun r => d ≤ r.date).head?

/-- `predicted_direction = 1 if sentiment_score > 0 else -1`. -/
def predictedDirection (s : ℚ) : ℤ :=
  if 0 < s then 1 else -1

/-- Per-horizon correctness increment: skipped when the forward return is
NaN, else 1 when `predicted_direction == (1 if forward > 0 else -1)`. -/
def hitCount (s : ℚ) (f : Option ℚ) : ℕ :=
  match f with
  | none => 0
  | some v => if predictedDirection s = (if 0 < v then 1 else -1) then 1 else 0

/-- The counters accumulated by the backtester's loop. -/
structure BacktestCounts where
  total : ℕ
  correct1 : ℕ
  correct3 : ℕ
  correct7 : ℕ
deriving DecidableEq

/-- Loop body of `calculate_sentiment_accuracy` for one sentiment row. -/
def backtestStep (pd : PriceData) (acc : BacktestCounts) (r : SentRecord) :
    BacktestCounts :=
  match lookupPrices pd r.symbol with
  | none => acc
  | some rows =>
    match firstOnOrAfter rows r.date with
    | none => acc
    | some row =>
      if row.forward1 = none ∧ row.forward3 = none ∧ row.forward7 = none then
        acc
      else
        { total := acc.total + 1
          correct1 := acc.correct1 + hitCount r.sentiment row.forward1
          correct3 := acc.correct3 + hitCount r.sentiment row.forward3
          correct7 := acc.correct7 + hitCount r.sentiment row.forward7 }

/-- The whole loop of `calculate_sentiment_accuracy`. -/
def backtestCounts (pd : PriceData) (records : List SentRecord) :
    BacktestCounts :=
  records.foldl (backtestStep pd) ⟨0, 0, 0, 0⟩

/-- The result dict of `calculate_sentiment_accuracy` (counter fields plus
the accuracy fields computed at the end, guarded by
`if results['total_predictions'] > 0`). -/
structure BacktestResults where
  total : ℕ
  correct1 : ℕ
  correct3 : ℕ
  correct7 : ℕ
  accuracy1 : ℚ
  accuracy3 : ℚ
  accuracy7 : ℚ
deriving DecidableEq

/-- `calculate_sentiment_accuracy`. -/
def calculateSentimentAccuracy (pd : PriceData) (records : List SentRecord) :
    BacktestResults :=
  let c := backtestCounts pd records
  { total := c.total
    correct1 := c.correct1
    correct3 := c.correct3
    correct7 := c.correct7
    accuracy1 := if 0 < c.total then (c.correct1 : ℚ) / c.total else 0
    accuracy3 := if 0 < c.total then (c.correct3 : ℚ) / c.total else 0
    accuracy7 := if 0 < c.total then (c.correct7 : ℚ) / c.total else 0 }

/-- Declarative description of the rows the backtester counts as
predictions: the symbol has price data, some trading day lies on or after
the record's date, and at least one forward return is defined there. -/
def matchedPairs (pd : PriceData) (records : List SentRecord) :
    List (SentRecord × PriceRow) :=
  records.filterMap fun r =>
    (lookupPrices pd r.symbol).bind fun rows =>
      (firstOnOrAfter rows r.date).bind fun row =>
        if row.forward1 = none ∧ row.forward3 = none ∧ row.forward7 = none then
          none
        else some (r, row)

/-- The directional-correctness predicate of the specification,
parametrized by the convention for the sign of a flat (zero) forward
return: `sign0 = 1` is the spec's stated convention ("a flat or positive
move counts as up"), `sign0 = -1` is what the code computes. -/
def specCorrect (sign0 : ℤ) (s : ℚ) (f : Option ℚ) : Bool :=
  match f with
  | none => false
  | some v =>
    predictedDirection s = (if 0 < v then 1 else if v < 0 then -1 else sign0)

theorem hitCount_eq_specCorrect_neg (s : ℚ) (f : Option ℚ) :
    hitCount s f = if specCorrect (-1) s f then 1 else 0 := by
  match f with
  | none => rfl
  | some v =>
    simp only [hitCount, specCorrect]
    by_cases h0 : 0 < v
    · simp [h0]
    · have hv : (if 0 < v then (1 : ℤ) else if v < 0 then -1 else -1) = -1 := by
        by_cases hneg : v < 0 <;> simp [h0, hneg]
      simp [h0, hv]

theorem backtest_foldl_eq (pd : PriceData) (records : List SentRecord)
    (acc : BacktestCounts) :
    records.foldl (backtestStep pd) acc =
      { total := acc.total + (matchedPairs pd records).length
        correct1 := acc.correct1 + (matchedPairs pd records).countP
          (fun e => specCorrect (-1) e.1.sentiment e.2.forward1)
        correct3 := acc.correct3 + (matchedPairs pd records).countP
          (fun e => specCorrect (-1) e.1.sentiment e.2.forward3)
        correct7 := acc.correct7 + (matchedPairs pd records).countP
          (fun e => specCorrect (-1) e.1.sentiment e.2.forward7) } := by
  induction records generalizing acc with
  | nil => simp [matchedPairs]
  | cons r rs ih =>
    rw [List.foldl_cons, ih]
    simp only [matchedPairs, List.filterMap_cons]
    cases hl : lookupPrices pd r.symbol with
    | none =>
      simp [backtestStep, hl, matchedPairs]
    | some rows =>
      cases hf : firstOnOrAfter rows r.date with
      | none =>
        simp [backtestStep, hl, hf, matchedPairs]
      | some row =>
        by_cases hn : row.forward1 = none ∧ row.forward3 = none ∧
            row.forward7 = none
        · simp [backtestStep, hl, hf, hn, matchedPairs]
        · simp only [backtestStep, hl, hf, if_neg hn, matchedPairs,
            Option.bind_some, Option.some_bind, List.length_cons,
            List.countP_cons, hitCount_eq_specCorrect_neg,
            BacktestCounts.mk.injEq]
          refine ⟨by omega, ?_, ?_, ?_⟩
          · cases h2 : specCorrect (-1) r.sentiment row.forward1 <;>
              simp [h2] <;> omega
          · cases h2 : specCorrect (-1) r.sentiment row.forward3 <;>
              simp [h2] <;> omega
          · cases h2 : specCorrect (-1) r.sentiment row.forward7 <;>
              simp [h2] <;> omega

/-- C1 (amended): in the backtester's matched (record, trading-day) pairs the
predicted direction is +1 exactly when the sentiment score is strictly
positive (a score of exactly 0.0 predicts -1), and a prediction is counted
correct for horizon h exactly when the forward return at h is present and
the predicted direction equals its sign — where a forward return of exactly
0 counts as -1 (down) on the actual-return side. -/
theorem backtester_direction_and_correctness (pd : PriceData)
    (records : List SentRecord) :
    (∀ s : ℚ, predictedDirection s = if 0 < s then 1 else -1) ∧
    (calculateSentimentAccuracy pd records).correct1 =
      (matchedPairs pd records).countP
        (fun e => specCorrect (-1) e.1.sentiment e.2.forward1) ∧
    (calculateSentimentAccuracy pd records).correct3 =
      (matchedPairs pd records).countP
        (fun e => specCorrect (-1) e.1.sentiment e.2.forward3) ∧
    (calculateSentimentAccuracy pd records).correct7 =
      (matchedPairs pd records).countP
        (fun e => specCorrect (-1) e.1.sentiment e.2.forward7) := by
  refine ⟨fun s => rfl, ?_, ?_, ?_⟩ <;>
    simp [calculateSentimentAccuracy, backtestCounts, backtest_foldl_eq]

/-- A record with positive sentiment whose matched day has a forward 1-day
return of exactly 0. -/
def recordsC1 : List SentRecord := [⟨"X", 0, 1/2, 1⟩]

/-- Price data for `recordsC1`: one trading day at day 0, flat 1-day return. -/
def pricesC1 : PriceData := [("X", [⟨0, some 0, none, none⟩])]

/-- C1 counterexample: with sentiment 0.5 (prediction +1) and a forward
1-day return of exactly 0, the code counts the prediction as incorrect
(`correct1 = 0`), while the claim's convention sign(0) = +1 would count it
correct (the claim-side count is 1). -/
theorem backtester_flat_return_counterexample :
    (calculateSentimentAccuracy pricesC1 recordsC1).correct1 = 0 ∧
    (matchedPairs pricesC1 recordsC1).countP
      (fun e => specCorrect 1 e.1.sentiment e.2.forward1) = 1 := by
  constructor
  · simp [calculateSentimentAccuracy, backtestCounts, backtestStep,
      lookupPrices, firstOnOrAfter, hitCount, predictedDirection,
      recordsC1, pricesC1, List.find?]
  · simp [matchedPairs, lookupPrices, firstOnOrAfter, specCorrect,
      predictedDirection, recordsC1, pricesC1, List.find?, List.countP,
      List.countP.go]

/-! ## Standalone price analyzer

Embeds `SentimentPriceAnalyzer._correlate_sentiment_with_prices`
(`src/sentiment_price_analyzer.py`, lines 175-254): nearest-trading-day
matching with a 3-day tolerance, per-horizon prediction/correct counters
gated on a decisive sentiment (`> 0.1` bullish, `< -0.1` bearish), and
accuracies reported as percentages. -/

/-- One combined sentiment item as consumed by the analyzer's loop. -/
structure AnalyzerItem where
  symbol : String
  date : ℤ
  sentiment : ℚ
  mentions : ℚ
  confidence : ℚ
deriving DecidableEq

/-- One price-history row with `price_change_{1,3,7}d` columns
(`none` = NaN). -/
structure AnalyzerRow where
  date : ℤ
  close : ℚ
  change1 : Option ℚ
  change3 : Option ℚ
  change7 : Option ℚ
deriving DecidableEq

/-- The analyzer's `price_data` dict. -/
abbrev AnalyzerPrices := List (String × List AnalyzerRow)

/-- `if symbol not in price_data: continue` / `price_data[symbol]`. -/
def lookupRows (pd : AnalyzerPrices) (s : String) : Option (List AnalyzerRow) :=
  (pd.find? fun p => p.1 = s).map Prod.snd

/-- One comparison step of Python's `min` with key `abs(x - d)`: keep the
earlier element unless the new one is strictly closer. -/
def closerTo (d : ℤ) (best : Option ℤ) (x : ℤ) : Option ℤ :=
  match best with
  | none => some x
  | some b => if |x - d| < |b - d| then some x else some b

/-- `min(trading_dates, key=lambda x: abs((x - sentiment_date).days))`:
Python's `min` returns the first minimizer in iteration order.  (On an empty
sequence Python raises; stored price histories are never empty, and we
return `none` for the empty list.) -/
def closestDate (dates : List ℤ) (d : ℤ) : Option ℤ :=
  dates.foldl (closerTo d) none

/-- `sentiment_bullish = sentiment_score > 0.1`. -/
def bullish (s : ℚ) : Bool := decide (1/10 < s)

/-- `sentiment_bearish = sentiment_score < -0.1`. -/
def bearish (s : ℚ) : Bool := decide (s < -(1/10))

/-- `prediction_made = sentiment_bullish or sentiment_bearish`. -/
def predictionMade (s : ℚ) : Bool := bullish s || bearish s

/-- `(sentiment_bullish and price_up) or (sentiment_bearish and not price_up)`
with `price_up = price_change > 0`. -/
def analyzerHit (s v : ℚ) : Bool :=
  (bullish s && decide (0 < v)) || (bearish s && !(decide (0 < v)))

/-- Per-horizon increment of `total_predictions[period]`: NaN changes are
skipped (`continue`), otherwise 1 when a prediction is made. -/
def tallyT (s : ℚ) (ch : Option ℚ) : ℕ :=
  match ch with
  | none => 0
  | some _ => if predictionMade s then 1 else 0

/-- Per-horizon increment of `correct_predictions[period]`. -/
def tallyC (s : ℚ) (ch : Option ℚ) : ℕ :=
  match ch with
  | none => 0
  | some v => if predictionMade s then (if analyzerHit s v then 1 else 0) else 0

/-- The per-horizon counters of the analyzer's loop. -/
structure AnalyzerCounts where
  t1 : ℕ
  t3 : ℕ
  t7 : ℕ
  c1 : ℕ
  c3 : ℕ
  c7 : ℕ
deriving DecidableEq

/-- Loop body of `_correlate_sentiment_with_prices` for one sentiment item. -/
def analyzerStep (pd : AnalyzerPrices) (acc : AnalyzerCounts)
    (item : AnalyzerItem) : AnalyzerCounts :=
  match lookupRows pd item.symbol with
  | none => acc
  | some rows =>
    match closestDate (rows.map fun r => r.date) item.date with
    | none => acc
    | some c =>
      if 3 < |c - item.date| then acc
      else
        match rows.find? fun r => r.date = c with
        | none => acc
        | some row =>
          { t1 := acc.t1 + tallyT item.sentiment row.change1
            t3 := acc.t3 + tallyT item.sentiment row.change3
            t7 := acc.t7 + tallyT item.sentiment row.change7
            c1 := acc.c1 + tallyC item.sentiment row.change1
            c3 := acc.c3 + tallyC item.sentiment row.change3
            c7 := acc.c7 + tallyC item.sentiment row.change7 }

/-- The whole loop of `_correlate_sentiment_with_prices`. -/
def analyzerCounts (pd : AnalyzerPrices) (items : List AnalyzerItem) :
    AnalyzerCounts :=
  items.foldl (analyzerStep pd) ⟨0, 0, 0, 0, 0, 0⟩

/-- The analyzer's result: counters plus the per-horizon accuracies
(`(correct / total) * 100`, or 0 when no predictions at that horizon). -/
structure AnalyzerResults where
  t1 : ℕ
  t3 : ℕ
  t7 : ℕ
  c1 : ℕ
  c3 : ℕ
  c7 : ℕ
  accuracy1 : ℚ
  accuracy3 : ℚ
  accuracy7 : ℚ
deriving DecidableEq

/-- `_correlate_sentiment_with_prices`. -/
def correlateSentimentWithPrices (pd : AnalyzerPrices)
    (items : List AnalyzerItem) : AnalyzerResults :=
  let c := analyzerCounts pd items
  { t1 := c.t1, t3 := c.t3, t7 := c.t7, c1 := c.c1, c3 := c.c3, c7 := c.c7
    accuracy1 := if 0 < c.t1 then (c.c1 : ℚ) / c.t1 * 100 else 0
    accuracy3 := if 0 < c.t3 then (c.c3 : ℚ) / c.t3 * 100 else 0
    accuracy7 := if 0 < c.t7 then (c.c7 : ℚ) / c.t7 * 100 else 0 }

/-- Declarative description of the analyzer's matched (item, trading-day)
pairs: price data present, nearest trading day within 3 days. -/
def analyzerMatched (pd : AnalyzerPrices) (items : List AnalyzerItem) :
    List (AnalyzerItem × AnalyzerRow) :=
  items.filterMap fun item =>
    (lookupRows pd item.symbol).bind fun rows =>
      (closestDate (rows.map fun r => r.date) item.date).bind fun c =>
        if 3 < |c - item.date| then none
        else (rows.find? fun r => r.date = c).map fun row => (item, row)

/-- A matched pair counts toward `total_predictions[h]` iff the change at
horizon h is present and the sentiment is decisive. -/
def horizonCounted (s : ℚ) (ch : Option ℚ) : Bool :=
  match ch with
  | none => false
  | some _ => predictionMade s

/-- A matched pair counts toward `correct_predictions[h]` iff it counts
toward the total and the direction call was right. -/
def horizonCorrect (s : ℚ) (ch : Option ℚ) : Bool :=
  match ch with
  | none => false
  | some v => predictionMade s && analyzerHit s v

theorem tallyT_eq (s : ℚ) (ch : Option ℚ) :
    tallyT s ch = if horizonCounted s ch then 1 else 0 := by
  match ch with
  | none => rfl
  | some v =>
    simp only [tallyT, horizonCounted]

theorem tallyC_eq (s : ℚ) (ch : Option ℚ) :
    tallyC s ch = if horizonCorrect s ch then 1 else 0 := by
  match ch with
  | none => rfl
  | some v =>
    simp only [tallyC, horizonCorrect]
    by_cases h1 : predictionMade s = true <;>
      by_cases h2 : analyzerHit s v = true <;>
        simp [h1, h2]

theorem analyzer_foldl_eq (pd : AnalyzerPrices) (items : List AnalyzerItem)
    (acc : AnalyzerCounts) :
    items.foldl (analyzerStep pd) acc =
      { t1 := acc.t1 + (analyzerMatched pd items).countP
          (fun e => horizonCounted e.1.sentiment e.2.change1)
        t3 := acc.t3 + (analyzerMatched pd items).countP
          (fun e => horizonCounted e.1.sentiment e.2.change3)
        t7 := acc.t7 + (analyzerMatched pd items).countP
          (fun e => horizonCounted e.1.sentiment e.2.change7)
        c1 := acc.c1 + (analyzerMatched pd items).countP
          (fun e => horizonCorrect e.1.sentiment e.2.change1)
        c3 := acc.c3 + (analyzerMatched pd items).countP
          (fun e => horizonCorrect e.1.sentiment e.2.change3)
        c7 := acc.c7 + (analyzerMatched pd items).countP
          (fun e => horizonCorrect e.1.sentiment e.2.change7) } := by
  induction items generalizing acc with
  | nil => simp [analyzerMatched]
  | cons it rest ih =>
    rw [List.foldl_cons, ih]
    simp only [analyzerMatched, List.filterMap_cons]
    cases hl : lookupRows pd it.symbol with
    | none => simp [analyzerStep, hl, analyzerMatched]
    | some rows =>
      cases hc : closestDate (rows.map fun r => r.date) it.date with
      | none => simp [analyzerStep, hl, hc, analyzerMatched]
      | some c =>
        by_cases hfar : 3 < |c - it.date|
        · simp [analyzerStep, hl, hc, hfar, analyzerMatched]
        · cases hrow : rows.find? fun r => r.date = c with
          | none => simp [analyzerStep, hl, hc, hfar, hrow, analyzerMatched]
          | some row =>
            simp only [analyzerStep, hl, hc, if_neg hfar, hrow,
              analyzerMatched, Option.some_bind, Option.map_some',
              List.countP_cons, tallyT_eq, tallyC_eq,
              AnalyzerCounts.mk.injEq]
            refine ⟨?_, ?_, ?_, ?_, ?_, ?_⟩
            · by_cases h2 : horizonCounted it.sentiment row.change1 = true <;>
                simp [h2] <;> omega
            · by_cases h2 : horizonCounted it.sentiment row.change3 = true <;>
                simp [h2] <;> omega
            · by_cases h2 : horizonCounted it.sentiment row.change7 = true <;>
                simp [h2] <;> omega
            · by_cases h2 : horizonCorrect it.sentiment row.change1 = true <;>
                simp [h2] <;> omega
            · by_cases h2 : horizonCorrect it.sentiment row.change3 = true <;>
                simp [h2] <;> omega
            · by_cases h2 : horizonCorrect it.sentiment row.change7 = true <;>
                simp [h2] <;> omega

/-- C2 (amended): in the standalone analyzer the prediction totals and
correct counts are maintained per horizon — a matched item contributes to
`total_predictions[h]` exactly when its sentiment is decisive and
`price_change[h]` is defined, so an undefined horizon is skipped for that
horizon only — and `accuracies[h] = 100 * correct[h] / total[h]`, reported
as 0 without dividing when `total[h]` is zero.  In the backtester there is
instead a single `total_predictions` shared by all horizons, counting every
matched record with at least one defined forward return, and
`accuracy[h] = correct[h] / total` (0.0 without dividing when the shared
total is zero). -/
theorem horizon_accounting :
    (∀ (pd : AnalyzerPrices) (items : List AnalyzerItem),
      (correlateSentimentWithPrices pd items).t1 =
        (analyzerMatched pd items).countP
          (fun e => horizonCounted e.1.sentiment e.2.change1) ∧
      (correlateSentimentWithPrices pd items).t7 =
        (analyzerMatched pd items).countP
          (fun e => horizonCounted e.1.sentiment e.2.change7) ∧
      (correlateSentimentWithPrices pd items).c1 =
        (analyzerMatched pd items).countP
          (fun e => horizonCorrect e.1.sentiment e.2.change1) ∧
      (correlateSentimentWithPrices pd items).c7 =
        (analyzerMatched pd items).countP
          (fun e => horizonCorrect e.1.sentiment e.2.change7) ∧
      (correlateSentimentWithPrices pd items).accuracy7 =
        (if 0 < (correlateSentimentWithPrices pd items).t7 then
          ((correlateSentimentWithPrices pd items).c7 : ℚ) /
            (correlateSentimentWithPrices pd items).t7 * 100 else 0)) ∧
    (∀ (pd : PriceData) (records : List SentRecord),
      (calculateSentimentAccuracy pd records).total =
        (matchedPairs pd records).length ∧
      (calculateSentimentAccuracy pd records).accuracy1 =
        (if 0 < (calculateSentimentAccuracy pd records).total then
          ((calculateSentimentAccuracy pd records).correct1 : ℚ) /
            (calculateSentimentAccuracy pd records).total else 0) ∧
      (calculateSentimentAccuracy pd records).accuracy7 =
        (if 0 < (calculateSentimentAccuracy pd records).total then
          ((calculateSentimentAccuracy pd records).correct7 : ℚ) /
            (calculateSentimentAccuracy pd records).total else 0)) := by
  constructor
  · intro pd items
    refine ⟨?_, ?_, ?_, ?_, rfl⟩ <;>
      simp [correlateSentimentWithPrices, analyzerCounts, analyzer_foldl_eq]
  · intro pd records
    refine ⟨?_, rfl, rfl⟩
    simp [calculateSentimentAccuracy, backtestCounts, backtest_foldl_eq]

/-- The spec's per-horizon accuracy for the backtester's matching rules:
denominator = matched records whose forward return at the horizon is
defined, numerator = those counted correct (spec sign convention
`sign(0) = +1`), 0 when the denominator is zero. -/
def specPerHorizonAccuracy (pd : PriceData) (records : List SentRecord)
    (getF : PriceRow → Option ℚ) : ℚ :=
  let m := (matchedPairs pd records).filter fun e => (getF e.2).isSome
  if 0 < m.length then
    ((m.countP fun e => specCorrect 1 e.1.sentiment (getF e.2)) : ℚ) / m.length
  else 0

/-- Two records for the same symbol matched to different trading days:
the first has a defined 7-day forward return, the second does not. -/
def recordsC2 : List SentRecord := [⟨"X", 0, 1/2, 1⟩, ⟨"X", 5, 1/2, 1⟩]

/-- Price data for `recordsC2`. -/
def pricesC2 : PriceData :=
  [("X", [⟨0, some 1, none, some 1⟩, ⟨5, some 1, none, none⟩])]

/-- C2 counterexample: the backtester divides each horizon's correct count
by the shared total.  Here two records are matched but only one has a
defined 7-day return (which is predicted correctly), so the code reports
`accuracy_7d = 1/2` while the claim's per-horizon accounting
(`correct[7]/total[7] = 1/1`) mandates 1. -/
theorem backtester_shared_denominator_counterexample :
    (calculateSentimentAccuracy pricesC2 recordsC2).accuracy7 = 1/2 ∧
    specPerHorizonAccuracy pricesC2 recordsC2 PriceRow.forward7 = 1 ∧
    (calculateSentimentAccuracy pricesC2 recordsC2).accuracy7 ≠
      specPerHorizonAccuracy pricesC2 recordsC2 PriceRow.forward7 := by
  have h1 : (calculateSentimentAccuracy pricesC2 recordsC2).accuracy7 = 1/2 := by
    simp [calculateSentimentAccuracy, backtestCounts, backtestStep,
      lookupPrices, firstOnOrAfter, hitCount, predictedDirection,
      recordsC2, pricesC2, List.find?, List.filter]
  have h2 : specPerHorizonAccuracy pricesC2 recordsC2 PriceRow.forward7 = 1 := by
    simp [specPerHorizonAccuracy, matchedPairs, lookupPrices,
      firstOnOrAfter, specCorrect, predictedDirection, recordsC2, pricesC2,
      List.find?, List.filter, List.countP, List.countP.go]
  refine ⟨h1, h2, ?_⟩
  rw [h1, h2]
  norm_num

theorem closest_go (d : ℤ) (xs : List ℤ) (b : ℤ) :
    ∃ c, xs.foldl (closerTo d) (some b) = some c ∧ (c = b ∨ c ∈ xs) ∧
      |c - d| ≤ |b - d| ∧ ∀ x ∈ xs, |c - d| ≤ |x - d| := by
  induction xs generalizing b with
  | nil => exact ⟨b, rfl, Or.inl rfl, le_refl _, by simp⟩
  | cons x xs ih =>
    simp only [List.foldl_cons, closerTo]
    by_cases h : |x - d| < |b - d|
    · rw [if_pos h]
      obtain ⟨c, hc, hmem, hle, hall⟩ := ih x
      refine ⟨c, hc, ?_, le_trans hle (le_of_lt h), ?_⟩
      · rcases hmem with h1 | h1
        · exact Or.inr (by simp [h1])
        · exact Or.inr (List.mem_cons_of_mem x h1)
      · intro y hy
        rcases List.mem_cons.mp hy with h1 | h1
        · exact h1 ▸ hle
        · exact hall y h1
    · rw [if_neg h]
      push_neg at h
      obtain ⟨c, hc, hmem, hle, hall⟩ := ih b
      refine ⟨c, hc, ?_, hle, ?_⟩
      · rcases hmem with h1 | h1
        · exact Or.inl h1
        · exact Or.inr (List.mem_cons_of_mem x h1)
      · intro y hy
        rcases List.mem_cons.mp hy with h1 | h1
        · exact h1 ▸ le_trans hle h
        · exact hall y h1

theorem closestDate_none_iff (dates : List ℤ) (d : ℤ) :
    closestDate dates d = none ↔ dates = [] := by
  cases dates with
  | nil => simp [closestDate]
  | cons x xs =>
    simp only [closestDate, List.foldl_cons]
    obtain ⟨c, hc, -, -, -⟩ := closest_go d xs x
    have hstep : closerTo d none x = some x := rfl
    rw [hstep, hc]
    simp

theorem closestDate_is_min (dates : List ℤ) (d c : ℤ)
    (h : closestDate dates d = some c) :
    c ∈ dates ∧ ∀ x ∈ dates, |c - d| ≤ |x - d| := by
  cases dates with
  | nil => simp [closestDate] at h
  | cons x xs =>
    simp only [closestDate, List.foldl_cons] at h
    have hstep : closerTo d none x = some x := rfl
    rw [hstep] at h
    obtain ⟨c', hc', hmem, hle, hall⟩ := closest_go d xs x
    rw [hc', Option.some.injEq] at h
    subst h
    constructor
    · rcases hmem with h1 | h1
      · exact h1 ▸ List.mem_cons_self x xs
      · exact List.mem_cons_of_mem x h1
    · intro y hy
      rcases List.mem_cons.mp hy with h1 | h1
      · exact h1 ▸ hle
      · exact hall y h1

theorem firstOnOrAfter_eq_find (rows : List PriceRow) (d : ℤ) :
    firstOnOrAfter rows d = rows.find? fun r => d ≤ r.date := by
  induction rows with
  | nil => rfl
  | cons r rest ih =>
    simp only [firstOnOrAfter, List.filter_cons] at ih ⊢
    by_cases h : d ≤ r.date
    · simp [List.find?, h]
    · simp [List.find?, h, ih]

theorem firstOnOrAfter_none_iff (rows : List PriceRow) (d : ℤ) :
    firstOnOrAfter rows d = none ↔ ∀ r ∈ rows, r.date < d := by
  rw [firstOnOrAfter_eq_find, List.find?_eq_none]
  constructor
  · intro h r hr
    have := h r hr
    simpa [not_le] using this
  · intro h r hr
    simp [not_le.mpr (h r hr)]

/-- C3 (amended): the standalone analyzer matches each record to the
trading day with smallest absolute day distance (the first such day in
series order) and skips the record entirely — contributing to no counter
and raising no error — when no trading day lies within 3 calendar days; the
backtester instead matches the first trading day on or after the record's
date, with no tolerance window, skipping a record only when every trading
day is strictly before its date. -/
theorem matching_characterization :
    (∀ (rows : List PriceRow) (d : ℤ),
      firstOnOrAfter rows d = rows.find? fun r => d ≤ r.date) ∧
    (∀ (rows : List PriceRow) (d : ℤ),
      firstOnOrAfter rows d = none ↔ ∀ r ∈ rows, r.date < d) ∧
    (∀ (dates : List ℤ) (d : ℤ), closestDate dates d = none ↔ dates = []) ∧
    (∀ (dates : List ℤ) (d c : ℤ), closestDate dates d = some c →
      c ∈ dates ∧ ∀ x ∈ dates, |c - d| ≤ |x - d|) ∧
    (∀ (pd : AnalyzerPrices) (acc : AnalyzerCounts) (item : AnalyzerItem)
      (rows : List AnalyzerRow), lookupRows pd item.symbol = some rows →
      (∀ r ∈ rows, 3 < |r.date - item.date|) →
      analyzerStep pd acc item = acc) ∧
    (∀ (pd : PriceData) (acc : BacktestCounts) (r : SentRecord)
      (rows : List PriceRow), lookupPrices pd r.symbol = some rows →
      (∀ x ∈ rows, x.date < r.date) →
      backtestStep pd acc r = acc) := by
  refine ⟨firstOnOrAfter_eq_find, firstOnOrAfter_none_iff,
    closestDate_none_iff, closestDate_is_min, ?_, ?_⟩
  · intro pd acc item rows hl hfar
    cases hc : closestDate (rows.map fun r => r.date) item.date with
    | none => simp [analyzerStep, hl, hc]
    | some c =>
      obtain ⟨hmem, -⟩ := closestDate_is_min _ _ _ hc
      obtain ⟨r, hr, hrd⟩ := List.mem_map.mp hmem
      have hfar' : 3 < |c - item.date| := hrd ▸ hfar r hr
      simp [analyzerStep, hl, hc, hfar']
  · intro pd acc r rows hl hbefore
    have hn := (firstOnOrAfter_none_iff rows r.date).mpr hbefore
    simp [backtestStep, hl, hn]

/-- A record whose only trading day is 10 calendar days later. -/
def recordsC3 : List SentRecord := [⟨"X", 0, 1/2, 1⟩]

/-- Price data for `recordsC3`: the single trading day is at day 10. -/
def pricesC3 : PriceData := [("X", [⟨10, some 1, none, none⟩])]

/-- C3 counterexample: the backtester has no tolerance window.  The only
trading day for the record dated day 0 is day 10 — more than 3 calendar
days away, so the claim mandates the record be skipped entirely — yet the
code matches it to day 10 and counts it as a prediction
(`total_predictions = 1`, not 0). -/
theorem backtester_tolerance_counterexample :
    ((3 : ℤ) < |(10 : ℤ) - 0|) ∧
    (calculateSentimentAccuracy pricesC3 recordsC3).total = 1 := by
  constructor
  · decide
  · simp [calculateSentimentAccuracy, backtestCounts, backtestStep,
      lookupPrices, firstOnOrAfter, hitCount, predictedDirection,
      recordsC3, pricesC3, List.find?, List.filter]

/-- Witness for the amended C3: on the concrete date list `[2, -1]` with
reference day 0 the analyzer's matcher returns -1, which is in the list and
is at least as close to 0 as the other candidate. -/
theorem matching_characterization_witness :
    closestDate [2, -1] 0 = some (-1) ∧
    (-1 : ℤ) ∈ ([2, -1] : List ℤ) ∧
    |(-1 : ℤ) - 0| ≤ |(2 : ℤ) - 0| := by
  have hc : closestDate [2, -1] 0 = some (-1) := by decide
  have h := matching_characterization.2.2.2.1 [2, -1] 0 (-1) hc
  exact ⟨hc, h.1, h.2 2 (by simp)⟩

/-! ## Stock Ranker

Embeds `StockRanker` (`src/src/analysis/stock_ranker.py`).  The momentum
transform uses `math.log` / `math.exp`, so this section works over `ℝ`.
`round(x, 4)` is modelled as rounding to the nearest multiple of `1/10000`.
The `all_symbols` set that `rank_stocks` iterates over is modelled as an
input list (Python set iteration order is unspecified); a symbol missing
from one source's dict contributes the `.get` defaults, modelled by
`SourceAgg.empty`. -/

/-- The per-source aggregate dict as read by `_calculate_stock_metrics`
through `.get` with defaults. -/
structure SourceAgg where
  compound : ℝ
  mentions : ℕ
  total_weight : ℝ
  positive : ℝ
  negative : ℝ

/-- The empty dict `{}` for a source with no data: every `.get` default. -/
def SourceAgg.empty : SourceAgg := ⟨0, 0, 0, 0, 0⟩

/-- Constructor-time configuration of `StockRanker` (from `analysis_config`,
defaults `min_mentions = 5`, `weight_reddit = 0.6`, `weight_twitter = 0.4`). -/
structure RankerConfig where
  minMentions : ℕ
  redditWeight : ℝ
  twitterWeight : ℝ

/-- Python `round(x, 4)`: round to the nearest multiple of `1/10000`. -/
noncomputable def round4 (x : ℝ) : ℝ :=
  ((round (x * 10000) : ℤ) : ℝ) / 10000

/-- The ranking record dict built by `_calculate_stock_metrics`.  `rank` is
only added later by `rank_stocks`; the not-yet-assigned state is modelled
as `rank = 0`. -/
structure StockRecord where
  symbol : String
  composite_score : ℝ
  composite_sentiment : ℝ
  momentum_score : ℝ
  confidence_score : ℝ
  total_mentions : ℕ
  reddit_mentions : ℕ
  twitter_mentions : ℕ
  reddit_sentiment : ℝ
  twitter_sentiment : ℝ
  reddit_positive : ℝ
  reddit_negative : ℝ
  twitter_positive : ℝ
  twitter_negative : ℝ
  reddit_engagement : ℝ
  twitter_engagement : ℝ
  timestamp : String
  rank : ℕ

/-- `_calculate_momentum_score`. -/
noncomputable def momentumScore (cfg : RankerConfig)
    (redditMentions twitterMentions : ℕ) (redditWeight twitterWeight : ℝ) :
    ℝ :=
  let redditMomentum :=
    Real.log (redditMentions + 1) * Real.log (redditWeight + 1)
  let twitterMomentum :=
    Real.log (twitterMentions + 1) * Real.log (twitterWeight + 1)
  let totalMomentum :=
    redditMomentum * cfg.redditWeight + twitterMomentum * cfg.twitterWeight
  let normalized := 2 / (1 + Real.exp (-totalMomentum / 10)) - 1
  max 0 (min 1 normalized)

/-- `_calculate_confidence_score` (thresholds 3/5/8 and the engagement
reference 100 are hard-coded in the source). -/
noncomputable def confidenceScore (redditMentions twitterMentions : ℕ)
    (redditWeight twitterWeight : ℝ) : ℝ :=
  let totalMentions := redditMentions + twitterMentions
  let mentionConfidence := min 1 ((totalMentions : ℝ) / 8)
  let sourceDiversity : ℝ :=
    if 3 ≤ redditMentions ∧ 5 ≤ twitterMentions then 1
    else if 0 < redditMentions ∧ 0 < twitterMentions then 0.8
    else 0.5
  let engagementQuality := min 1 ((redditWeight + twitterWeight) / 100)
  round4 (mentionConfidence * 0.4 + sourceDiversity * 0.4 +
    engagementQuality * 0.2)

/-- `_calculate_stock_metrics`; `now` is the value of
`datetime.now().isoformat()` at the time of the call. -/
noncomputable def calculateStockMetrics (cfg : RankerConfig) (now : String)
    (symbol : String) (rd td : SourceAgg) : StockRecord :=
  let totalWeight :=
    rd.total_weight * cfg.redditWeight + td.total_weight * cfg.twitterWeight
  let compositeSentiment :=
    if 0 < totalWeight then
      (rd.compound * rd.total_weight * cfg.redditWeight +
        td.compound * td.total_weight * cfg.twitterWeight) / totalWeight
    else 0
  let momentum :=
    momentumScore cfg rd.mentions td.mentions rd.total_weight td.total_weight
  let compositeScore := compositeSentiment * 0.7 + momentum * 0.3
  let confidence :=
    confidenceScore rd.mentions td.mentions rd.total_weight td.total_weight
  { symbol := symbol
    composite_score := round4 compositeScore
    composite_sentiment := round4 compositeSentiment
    momentum_score := round4 momentum
    confidence_score := round4 confidence
    total_mentions := rd.mentions + td.mentions
    reddit_mentions := rd.mentions
    twitter_mentions := td.mentions
    reddit_sentiment := round4 rd.compound
    twitter_sentiment := round4 td.compound
    reddit_positive := round4 rd.positive
    reddit_negative := round4 rd.negative
    twitter_positive := round4 td.positive
    twitter_negative := round4 td.negative
    reddit_engagement := rd.total_weight
    twitter_engagement := td.total_weight
    timestamp := now
    rank := 0 }

/-- The sort key relation of `ranked_stocks.sort(key=lambda x:
x['composite_score'], reverse=True)`: descending by composite score, ties
keeping list order (stable sort). -/
def scoreGE (a b : StockRecord) : Prop :=
  b.composite_score ≤ a.composite_score

noncomputable instance : DecidableRel scoreGE :=
  fun a b => Real.decidableLE _ _

instance : IsTotal StockRecord scoreGE :=
  ⟨fun a b => le_total b.composite_score a.composite_score⟩

instance : IsTrans StockRecord scoreGE :=
  ⟨fun _ _ _ h1 h2 => le_trans h2 h1⟩

/-- Python's `list.sort` is stable; stable insertion sort with `scoreGE`
(ties favour the earlier element) models it. -/
noncomputable def sortByScore (l : List StockRecord) : List StockRecord :=
  List.insertionSort scoreGE l

/-- `for i, stock in enumerate(ranked_stocks): stock['rank'] = i + 1`. -/
def assignRanks : ℕ → List StockRecord → List StockRecord
  | _, [] => []
  | i, r :: rs => { r with rank := i + 1 } :: assignRanks (i + 1) rs

/-- `rank_stocks`: build metrics per symbol, keep those meeting
`min_mentions`, sort by composite score descending, assign ranks 1..N. -/
noncomputable def rankStocks (cfg : RankerConfig) (now : String)
    (inputs : List (String × SourceAgg × SourceAgg)) : List StockRecord :=
  let metricsList :=
    inputs.map fun e => calculateStockMetrics cfg now e.1 e.2.1 e.2.2
  let filtered := metricsList.filter fun r =>
    cfg.minMentions ≤ r.reddit_mentions + r.twitter_mentions
  assignRanks 0 (sortByScore filtered)

theorem round_le_round {x y : ℝ} (h : x ≤ y) : round x ≤ round y := by
  rw [round_eq, round_eq]
  exact Int.floor_mono (by linarith)

theorem round4_nonneg {x : ℝ} (hx : 0 ≤ x) : 0 ≤ round4 x := by
  unfold round4
  have h0 : (0 : ℤ) ≤ round (x * 10000) := by
    have h1 := round_le_round (show (0 : ℝ) ≤ x * 10000 by nlinarith)
    simpa using h1
  have h2 : (0 : ℝ) ≤ ((round (x * 10000) : ℤ) : ℝ) := by exact_mod_cast h0
  positivity

theorem round4_le_one {x : ℝ} (hx : x ≤ 1) : round4 x ≤ 1 := by
  unfold round4
  have h1 : round (x * 10000) ≤ round ((10000 : ℝ)) :=
    round_le_round (by nlinarith)
  have h2 : round ((10000 : ℝ)) = 10000 := by
    rw [show ((10000 : ℝ)) = ((10000 : ℤ) : ℝ) by norm_num, round_intCast]
  rw [h2] at h1
  rw [div_le_one (by norm_num)]
  exact_mod_cast h1

theorem round4_int (n : ℤ) : round4 ((n : ℝ) / 10000) = (n : ℝ) / 10000 := by
  unfold round4
  rw [div_mul_cancel₀ _ (by norm_num : (10000 : ℝ) ≠ 0), round_intCast]

theorem round4_zero : round4 0 = 0 := by
  have h := round4_int 0
  simpa using h

theorem mem_assignRanks {l : List StockRecord} {i : ℕ} {r : StockRecord}
    (h : r ∈ assignRanks i l) : ∃ r0 ∈ l, r = { r0 with rank := r.rank } := by
  induction l generalizing i with
  | nil => simp [assignRanks] at h
  | cons a as ih =>
    simp only [assignRanks, List.mem_cons] at h
    rcases h with h | h
    · refine ⟨a, List.mem_cons_self a as, ?_⟩
      rw [h]
    · obtain ⟨r0, hr0, heq⟩ := ih h
      exact ⟨r0, List.mem_cons_of_mem a hr0, heq⟩

theorem mem_rankStocks {cfg : RankerConfig} {now : String}
    {inputs : List (String × SourceAgg × SourceAgg)} {r : StockRecord}
    (h : r ∈ rankStocks cfg now inputs) :
    ∃ e ∈ inputs,
      r.momentum_score =
        (calculateStockMetrics cfg now e.1 e.2.1 e.2.2).momentum_score ∧
      r.confidence_score =
        (calculateStockMetrics cfg now e.1 e.2.1 e.2.2).confidence_score ∧
      r.total_mentions =
        (calculateStockMetrics cfg now e.1 e.2.1 e.2.2).total_mentions := by
  simp only [rankStocks] at h
  obtain ⟨r0, hr0, heq⟩ := mem_assignRanks h
  have hr0f : r0 ∈ (inputs.map fun e =>
      calculateStockMetrics cfg now e.1 e.2.1 e.2.2).filter fun r =>
        cfg.minMentions ≤ r.reddit_mentions + r.twitter_mentions := by
    simpa [sortByScore] using hr0
  have hr0m := (List.mem_filter.mp hr0f).1
  obtain ⟨e, he, heq2⟩ := List.mem_map.mp hr0m
  refine ⟨e, he, ?_, ?_, ?_⟩ <;> rw [heq, ← heq2]

theorem momentum_unrounded_mem (z : ℝ) :
    0 ≤ max 0 (min 1 z) ∧ max 0 (min 1 z) ≤ 1 :=
  ⟨le_max_left 0 _, max_le (by norm_num) (min_le_left 1 z)⟩

theorem confidence_unrounded_mem (rm tm : ℕ) (rw tw : ℝ)
    (hw : 0 ≤ rw + tw) :
    0 ≤ confidenceScore rm tm rw tw ∧ confidenceScore rm tm rw tw ≤ 1 := by
  unfold confidenceScore
  set mc := min 1 (((rm + tm : ℕ) : ℝ) / 8) with hmc
  set sd : ℝ := if 3 ≤ rm ∧ 5 ≤ tm then 1
    else if 0 < rm ∧ 0 < tm then 0.8 else 0.5 with hsd
  set eq := min 1 ((rw + tw) / 100) with heq
  have hmc0 : 0 ≤ mc := le_min (by norm_num) (by positivity)
  have hmc1 : mc ≤ 1 := min_le_left _ _
  have hsd0 : 0 ≤ sd := by
    rw [hsd]
    split <;> norm_num
    split <;> norm_num
  have hsd1 : sd ≤ 1 := by
    rw [hsd]
    split <;> norm_num
    split <;> norm_num
  have heq0 : 0 ≤ eq := le_min (by norm_num) (by positivity)
  have heq1 : eq ≤ 1 := min_le_left _ _
  constructor
  · exact round4_nonneg (by nlinarith)
  · exact round4_le_one (by nlinarith)

/-- C9: every record produced by `rank_stocks` has its momentum score and
its confidence score in [0, 1] (given non-negative stored engagement
weights, which the aggregator guarantees), and the momentum score is
exactly the sigmoid transform `2 / (1 + e^(-combined/10)) - 1` of the
weight-combined per-source momenta, clamped to [0, 1] (and rounded to 4
decimal places at the record boundary). -/
theorem ranker_scores_in_unit_interval (cfg : RankerConfig) (now : String)
    (inputs : List (String × SourceAgg × SourceAgg))
    (hw : ∀ e ∈ inputs, 0 ≤ (e.2.1).total_weight + (e.2.2).total_weight) :
    (∀ (rm tm : ℕ) (rw tw : ℝ),
      momentumScore cfg rm tm rw tw =
        max 0 (min 1 (2 / (1 + Real.exp
          (-((Real.log (rm + 1) * Real.log (rw + 1)) * cfg.redditWeight +
             (Real.log (tm + 1) * Real.log (tw + 1)) * cfg.twitterWeight)
            / 10)) - 1))) ∧
    ∀ r ∈ rankStocks cfg now inputs,
      (0 ≤ r.momentum_score ∧ r.momentum_score ≤ 1) ∧
      (0 ≤ r.confidence_score ∧ r.confidence_score ≤ 1) := by
  refine ⟨fun rm tm rw tw => rfl, ?_⟩
  intro r hr
  obtain ⟨e, he, hm, hc, -⟩ := mem_rankStocks hr
  constructor
  · rw [hm]
    show 0 ≤ round4 (momentumScore cfg _ _ _ _) ∧
      round4 (momentumScore cfg _ _ _ _) ≤ 1
    have := momentum_unrounded_mem
      (2 / (1 + Real.exp
        (-((Real.log ((e.2.1).mentions + 1) *
              Real.log ((e.2.1).total_weight + 1)) * cfg.redditWeight +
           (Real.log ((e.2.2).mentions + 1) *
              Real.log ((e.2.2).total_weight + 1)) * cfg.twitterWeight)
          / 10)) - 1)
    exact ⟨round4_nonneg this.1, round4_le_one this.2⟩
  · rw [hc]
    show 0 ≤ round4 (confidenceScore _ _ _ _) ∧
      round4 (confidenceScore _ _ _ _) ≤ 1
    have := confidence_unrounded_mem (e.2.1).mentions (e.2.2).mentions
      (e.2.1).total_weight (e.2.2).total_weight (hw e he)
    exact ⟨round4_nonneg this.1, round4_le_one this.2⟩

/-- The ranker configuration with the source's defaults. -/
noncomputable def cfgEx : RankerConfig := ⟨5, 0.6, 0.4⟩

/-- Reddit aggregate with 5 mentions and zero engagement weight. -/
def aggB : SourceAgg := ⟨0, 5, 0, 0, 0⟩

/-- Reddit aggregate with 6 mentions and zero engagement weight. -/
def aggA : SourceAgg := ⟨0, 6, 0, 0, 0⟩

/-- Two symbols with tied composite scores: "B" (5 mentions) enumerated
before "A" (6 mentions). -/
def exampleInputs : List (String × SourceAgg × SourceAgg) :=
  [("B", aggB, SourceAgg.empty), ("A", aggA, SourceAgg.empty)]

/-- The record produced for a symbol with `m` reddit mentions and all-zero
engagement weights: every score is 0 except the confidence score. -/
noncomputable def zeroWeightRec (sym : String) (conf : ℝ) (m : ℕ)
    (t : String) (rk : ℕ) : StockRecord :=
  ⟨sym, 0, 0, 0, conf, m, m, 0, 0, 0, 0, 0, 0, 0, 0, 0, t, rk⟩

theorem momentumScore_zero_weight (cfg : RankerConfig) (rm tm : ℕ) :
    momentumScore cfg rm tm 0 0 = 0 := by
  simp only [momentumScore]
  norm_num [Real.log_one, Real.exp_zero]

theorem round4_decimal (n : ℤ) (x : ℝ) (hx : x = (n : ℝ) / 10000) :
    round4 x = x := by
  rw [hx, round4_int]

theorem confidenceScore_B : confidenceScore 5 0 0 0 = 0.45 := by
  simp only [confidenceScore]
  norm_num [min_def]
  rw [round4_decimal 4500 _ (by norm_num)]

theorem confidenceScore_A : confidenceScore 6 0 0 0 = 0.5 := by
  simp only [confidenceScore]
  norm_num [min_def]
  rw [round4_decimal 5000 _ (by norm_num)]

theorem metricsB (t : String) :
    calculateStockMetrics cfgEx t "B" aggB SourceAgg.empty =
      zeroWeightRec "B" 0.45 5 t 0 := by
  simp only [calculateStockMetrics, aggB, SourceAgg.empty,
    momentumScore_zero_weight, confidenceScore_B, zeroWeightRec]
  norm_num [round4_zero]
  rw [round4_decimal 4500 _ (by norm_num)]

theorem metricsA (t : String) :
    calculateStockMetrics cfgEx t "A" aggA SourceAgg.empty =
      zeroWeightRec "A" 0.5 6 t 0 := by
  simp only [calculateStockMetrics, aggA, SourceAgg.empty,
    momentumScore_zero_weight, confidenceScore_A, zeroWeightRec]
  norm_num [round4_zero]
  rw [round4_decimal 5000 _ (by norm_num)]

theorem rankStocks_example (t : String) :
    rankStocks cfgEx t exampleInputs =
      [zeroWeightRec "B" 0.45 5 t 1, zeroWeightRec "A" 0.5 6 t 2] := by
  simp only [rankStocks, exampleInputs, List.map_cons, List.map_nil,
    metricsB, metricsA]
  have hfilter :
      ([zeroWeightRec "B" 0.45 5 t 0, zeroWeightRec "A" 0.5 6 t 0].filter
        fun r => cfgEx.minMentions ≤ r.reddit_mentions + r.twitter_mentions) =
      [zeroWeightRec "B" 0.45 5 t 0, zeroWeightRec "A" 0.5 6 t 0] := by
    rw [List.filter_cons, List.filter_cons, List.filter_nil]
    norm_num [zeroWeightRec, cfgEx]
  rw [hfilter]
  have hsort : sortByScore
      [zeroWeightRec "B" 0.45 5 t 0, zeroWeightRec "A" 0.5 6 t 0] =
      [zeroWeightRec "B" 0.45 5 t 0, zeroWeightRec "A" 0.5 6 t 0] := by
    simp only [sortByScore, List.insertionSort, List.orderedInsert]
    rw [if_pos (by simp [scoreGE, zeroWeightRec] : scoreGE
      (zeroWeightRec "B" 0.45 5 t 0) (zeroWeightRec "A" 0.5 6 t 0))]
  rw [hsort]
  simp [assignRanks, zeroWeightRec]

/-- Witness for C9 at a concrete run (the example input has zero stored
engagement weights, so the hypothesis holds). -/
theorem ranker_scores_in_unit_interval_witness :
    (0 ≤ (zeroWeightRec "B" 0.45 5 "t0" 1).momentum_score ∧
      (zeroWeightRec "B" 0.45 5 "t0" 1).momentum_score ≤ 1) ∧
    (0 ≤ (zeroWeightRec "B" 0.45 5 "t0" 1).confidence_score ∧
      (zeroWeightRec "B" 0.45 5 "t0" 1).confidence_score ≤ 1) :=
  (ranker_scores_in_unit_interval cfgEx "t0" exampleInputs
    (by
      intro e he
      simp only [exampleInputs, List.mem_cons, List.not_mem_nil,
        or_false] at he
      rcases he with h | h <;>
        simp [h, aggB, aggA, SourceAgg.empty])).2
    (zeroWeightRec "B" 0.45 5 "t0" 1)
    (by rw [rankStocks_example]; exact List.mem_cons_self _ _)

theorem assignRanks_pairwise (l : List StockRecord) (i : ℕ)
    (h : List.Pairwise scoreGE l) :
    List.Pairwise scoreGE (assignRanks i l) := by
  induction l generalizing i with
  | nil => exact List.Pairwise.nil
  | cons a as ih =>
    rcases List.pairwise_cons.mp h with ⟨ha, has⟩
    refine List.Pairwise.cons ?_ (ih (i + 1) has)
    intro b hb
    obtain ⟨b0, hb0, hbeq⟩ := mem_assignRanks hb
    have h1 := ha b0 hb0
    have h2 : b.composite_score = b0.composite_score := by rw [hbeq]
    simp only [scoreGE] at h1 ⊢
    rw [h2]
    exact h1

theorem assignRanks_ranks (l : List StockRecord) (i : ℕ) :
    (assignRanks i l).map (fun r => r.rank) = List.range' (i + 1) l.length := by
  induction l generalizing i with
  | nil => rfl
  | cons a as ih =>
    simp only [assignRanks, List.map_cons, List.length_cons,
      List.range'_succ, ih]

theorem assignRanks_length (l : List StockRecord) (i : ℕ) :
    (assignRanks i l).length = l.length := by
  induction l generalizing i with
  | nil => rfl
  | cons a as ih => simp [assignRanks, ih]

theorem rankStocks_min_mentions (cfg : RankerConfig) (now : String)
    (inputs : List (String × SourceAgg × SourceAgg)) :
    ∀ r ∈ rankStocks cfg now inputs, cfg.minMentions ≤ r.total_mentions := by
  intro r hr
  simp only [rankStocks] at hr
  obtain ⟨r0, hr0, heq⟩ := mem_assignRanks hr
  have hr0f : r0 ∈ (inputs.map fun e =>
      calculateStockMetrics cfg now e.1 e.2.1 e.2.2).filter fun r =>
        cfg.minMentions ≤ r.reddit_mentions + r.twitter_mentions := by
    simpa [sortByScore] using hr0
  have hcond := (List.mem_filter.mp hr0f).2
  obtain ⟨e, he, heq2⟩ := List.mem_map.mp (List.mem_filter.mp hr0f).1
  have htot : r0.total_mentions = r0.reddit_mentions + r0.twitter_mentions := by
    rw [← heq2]; rfl
  have hle : cfg.minMentions ≤ r0.reddit_mentions + r0.twitter_mentions := by
    simpa using hcond
  have hrt : r.total_mentions = r0.total_mentions := by rw [heq]
  rw [hrt, htot]
  exact hle

/-- C5: the output of `rank_stocks` is sorted by non-increasing composite
score, the rank field of the i-th record is i + 1 (ranks are 1..N in
order), and every record meets the `min_mentions` inclusion floor. -/
theorem ranker_sorted_ranked_filtered (cfg : RankerConfig) (now : String)
    (inputs : List (String × SourceAgg × SourceAgg)) :
    List.Pairwise scoreGE (rankStocks cfg now inputs) ∧
    (rankStocks cfg now inputs).map (fun r => r.rank) =
      List.range' 1 (rankStocks cfg now inputs).length ∧
    ∀ r ∈ rankStocks cfg now inputs, cfg.minMentions ≤ r.total_mentions := by
  refine ⟨?_, ?_, rankStocks_min_mentions cfg now inputs⟩
  · exact assignRanks_pairwise _ 0 (List.sorted_insertionSort scoreGE _)
  · simp only [rankStocks, assignRanks_ranks, assignRanks_length]

/-- Witness for C5 at the concrete example run. -/
theorem ranker_sorted_ranked_filtered_witness :
    List.Pairwise scoreGE (rankStocks cfgEx "t0" exampleInputs) ∧
    cfgEx.minMentions ≤ (zeroWeightRec "B" 0.45 5 "t0" 1).total_mentions :=
  ⟨(ranker_sorted_ranked_filtered cfgEx "t0" exampleInputs).1,
   (ranker_sorted_ranked_filtered cfgEx "t0" exampleInputs).2.2
     (zeroWeightRec "B" 0.45 5 "t0" 1)
     (by rw [rankStocks_example]; exact List.mem_cons_self _ _)⟩

/-- The claimed tie-break order: descending composite score, then
descending total mentions, then ascending symbol name. -/
def specTieBreak (a b : StockRecord) : Prop :=
  b.composite_score < a.composite_score ∨
    (a.composite_score = b.composite_score ∧
      (b.total_mentions < a.total_mentions ∨
        (a.total_mentions = b.total_mentions ∧ a.symbol < b.symbol)))

/-- C5 counterexample: two symbols with exactly tied composite scores (both
0, arising from zero engagement weights) come out in set-enumeration order,
not in the claimed descending-mentions order: "B" with 5 mentions precedes
"A" with 6.  The code breaks ties only by the stable sort's input order. -/
theorem ranker_tiebreak_counterexample :
    (rankStocks cfgEx "t0" exampleInputs).map
        (fun r => (r.symbol, r.total_mentions, r.composite_score)) =
      [("B", 5, (0 : ℝ)), ("A", 6, 0)] ∧
    ¬ List.Pairwise specTieBreak (rankStocks cfgEx "t0" exampleInputs) := by
  constructor
  · rw [rankStocks_example]
    simp [zeroWeightRec]
  · rw [rankStocks_example]
    intro h
    rcases List.pairwise_cons.mp h with ⟨hrel, -⟩
    have h1 := hrel (zeroWeightRec "A" 0.5 6 "t0" 2)
      (List.mem_cons_self _ _)
    simp only [specTieBreak, zeroWeightRec] at h1
    rcases h1 with h1 | ⟨-, h1 | ⟨h1, -⟩⟩
    · exact absurd h1 (by norm_num)
    · exact absurd h1 (by norm_num)
    · exact absurd h1 (by norm_num)

/-- `rank_stocks` with the clock abstracted: updating only the timestamp. -/
noncomputable def setTimestamp (t : String) (r : StockRecord) : StockRecord :=
  { r with timestamp := t }

theorem calculateStockMetrics_timestamp (cfg : RankerConfig) (t1 t2 : String)
    (symbol : String) (rd td : SourceAgg) :
    calculateStockMetrics cfg t2 symbol rd td =
      setTimestamp t2 (calculateStockMetrics cfg t1 symbol rd td) := rfl

theorem orderedInsert_map_setTimestamp (t : String) (a : StockRecord)
    (l : List StockRecord) :
    List.orderedInsert scoreGE (setTimestamp t a) (l.map (setTimestamp t)) =
      (List.orderedInsert scoreGE a l).map (setTimestamp t) := by
  induction l with
  | nil => rfl
  | cons b bs ih =>
    by_cases h : scoreGE a b
    · have h' : scoreGE (setTimestamp t a) (setTimestamp t b) := h
      rw [List.map_cons, List.orderedInsert, List.orderedInsert, if_pos h',
        if_pos h, List.map_cons, List.map_cons]
    · have h' : ¬ scoreGE (setTimestamp t a) (setTimestamp t b) := h
      rw [List.map_cons, List.orderedInsert, List.orderedInsert, if_neg h',
        if_neg h, List.map_cons, ih]

theorem insertionSort_map_setTimestamp (t : String) (l : List StockRecord) :
    List.insertionSort scoreGE (l.map (setTimestamp t)) =
      (List.insertionSort scoreGE l).map (setTimestamp t) := by
  induction l with
  | nil => rfl
  | cons a as ih =>
    rw [List.map_cons, List.insertionSort, List.insertionSort, ih,
      orderedInsert_map_setTimestamp]

theorem assignRanks_map_setTimestamp (t : String) (i : ℕ)
    (l : List StockRecord) :
    assignRanks i (l.map (setTimestamp t)) =
      (assignRanks i l).map (setTimestamp t) := by
  induction l generalizing i with
  | nil => rfl
  | cons a as ih =>
    rw [List.map_cons, assignRanks, assignRanks, List.map_cons, ih]
    rfl

/-- C7 (amended): two runs of `rank_stocks` on identical signal inputs with
identical weights produce record sequences that agree on every field except
`timestamp`, in the same order; the `timestamp` field records each run's
wall-clock time, so the sequences are byte-identical only if the clock
reads are equal. -/
theorem ranker_rerun_timestamp_only (cfg : RankerConfig) (t1 t2 : String)
    (inputs : List (String × SourceAgg × SourceAgg)) :
    rankStocks cfg t2 inputs =
      (rankStocks cfg t1 inputs).map (setTimestamp t2) := by
  simp only [rankStocks]
  have hmap : (inputs.map fun e =>
      calculateStockMetrics cfg t2 e.1 e.2.1 e.2.2) =
      (inputs.map fun e =>
        calculateStockMetrics cfg t1 e.1 e.2.1 e.2.2).map (setTimestamp t2) := by
    rw [List.map_map]
    exact List.map_congr_left fun e _ =>
      calculateStockMetrics_timestamp cfg t1 t2 e.1 e.2.1 e.2.2
  rw [hmap]
  rw [List.filter_map]
  have hpred : ((fun r => decide
      (cfg.minMentions ≤ r.reddit_mentions + r.twitter_mentions)) ∘
        setTimestamp t2) = fun r => decide
      (cfg.minMentions ≤ r.reddit_mentions + r.twitter_mentions) := rfl
  rw [hpred]
  rw [show sortByScore = List.insertionSort scoreGE from rfl] at *
  rw [insertionSort_map_setTimestamp, assignRanks_map_setTimestamp]

/-- C7 counterexample: the records embed `datetime.now().isoformat()`, so
two runs at different clock readings differ byte-for-byte in the
`timestamp` field even on identical inputs. -/
theorem ranker_rerun_counterexample :
    rankStocks cfgEx "2024-01-01T00:00:00" exampleInputs ≠
      rankStocks cfgEx "2024-01-02T00:00:00" exampleInputs := by
  intro h
  rw [rankStocks_example, rankStocks_example] at h
  have h2 := congrArg (fun l => l.map fun r => r.timestamp) h
  simp only [List.map_cons, List.map_nil, zeroWeightRec] at h2
  have h3 : "2024-01-01T00:00:00" = "2024-01-02T00:00:00" :=
    (List.cons.injEq _ _ _ _).mp h2 |>.1
  exact absurd h3 (by decide)

/-! ## Combining the two sentiment histories

Embeds `SentimentPriceAnalyzer._combine_sentiment_data`
(`src/sentiment_price_analyzer.py`, lines 110-119): the entries loaded from
the `symbol_sentiment_history` database table (source `'database'`) and
from the daily `analysis_*.json` summary-export files (source `'json'`,
carrying the exported `top_rankings`) are folded into one Python dict keyed
by `f"{date}_{symbol}"`, database entries first, JSON entries second. -/

/-- One entry of the combined sentiment list (the dict shape shared by
`_load_json_sentiment_data` and `_load_database_sentiment_data`). -/
structure SentimentEntry where
  date : String
  symbol : String
  sentiment_score : ℚ
  mentions : ℚ
  confidence : ℚ
  composite_score : ℚ
  source : String
deriving DecidableEq

/-- `f"{item['date']}_{item['symbol']}"`. -/
def entryKey (e : SentimentEntry) : String := e.date ++ "_" ++ e.symbol

/-- Python dict assignment `combined[key] = item`: replace in place when
the key is present (keeping its position), else append. -/
def insertEntry (m : List (String × SentimentEntry)) (k : String)
    (v : SentimentEntry) : List (String × SentimentEntry) :=
  if m.any fun p => p.1 = k then
    m.map fun p => if p.1 = k then (k, v) else p
  else m ++ [(k, v)]

/-- The dict built by `_combine_sentiment_data`'s loop
`for item in db_data + json_data: combined[key] = item`. -/
def combineMap (jsonData dbData : List SentimentEntry) :
    List (String × SentimentEntry) :=
  (dbData ++ jsonData).foldl
    (fun m item => insertEntry m (entryKey item) item) []

/-- `_combine_sentiment_data` returns `list(combined.values())`. -/
def combineSentimentData (jsonData dbData : List SentimentEntry) :
    List SentimentEntry :=
  (combineMap jsonData dbData).map Prod.snd

/-- Dict lookup on the association-list model. -/
def lookupKey (k : String) (m : List (String × SentimentEntry)) :
    Option SentimentEntry :=
  (m.find? fun p => p.1 = k).map Prod.snd

theorem find_map_replace (k : String) (v : SentimentEntry) :
    ∀ m : List (String × SentimentEntry), (∃ p ∈ m, p.1 = k) →
      ((m.map fun p => if p.1 = k then (k, v) else p).find?
        fun p => p.1 = k) = some (k, v)
  | [], h => by simp at h
  | a :: as, h => by
    by_cases ha : a.1 = k
    · simp [List.find?, ha]
    · have h' : ∃ p ∈ as, p.1 = k := by
        rcases h with ⟨p, hp, hpk⟩
        rcases List.mem_cons.mp hp with rfl | hp'
        · exact absurd hpk ha
        · exact ⟨p, hp', hpk⟩
      simp only [List.map_cons, if_neg ha, List.find?]
      rw [show (decide (a.1 = k)) = false by simp [ha]]
      exact find_map_replace k v as h'

theorem lookup_insertEntry_self (m : List (String × SentimentEntry))
    (k : String) (v : SentimentEntry) :
    lookupKey k (insertEntry m k v) = some v := by
  unfold insertEntry lookupKey
  by_cases h : m.any fun p => p.1 = k
  · rw [if_pos h]
    have hex : ∃ p ∈ m, p.1 = k := by
      simpa using List.any_eq_true.mp h
    rw [find_map_replace k v m hex]
    rfl
  · rw [if_neg h]
    rw [List.find?_append]
    have hnone : (m.find? fun p => p.1 = k) = none := by
      rw [List.find?_eq_none]
      intro p hp
      have := (List.any_eq_true.not.mp h)
      simp only [not_exists, not_and] at this
      simpa using this p hp
    rw [hnone]
    simp [List.find?]

theorem lookup_insertEntry_other (m : List (String × SentimentEntry))
    (k k' : String) (v : SentimentEntry) (h : k' ≠ k) :
    lookupKey k' (insertEntry m k v) = lookupKey k' m := by
  unfold insertEntry lookupKey
  by_cases hany : m.any fun p => p.1 = k
  · rw [if_pos hany]
    clear hany
    induction m with
    | nil => rfl
    | cons a as ih =>
      by_cases ha : a.1 = k
      · have hak : ¬ (a.1 = k') := fun hc => h (hc.symm.trans ha)
        simp only [List.map_cons, if_pos ha, List.find?]
        rw [show (decide ((k, v).1 = k')) = false by simp [Ne.symm h],
          show (decide (a.1 = k')) = false by simp [hak]]
        exact ih
      · simp only [List.map_cons, if_neg ha, List.find?]
        by_cases ha' : a.1 = k'
        · rw [show (decide (a.1 = k')) = true by simp [ha']]
        · rw [show (decide (a.1 = k')) = false by simp [ha']]
          exact ih
  · rw [if_neg hany, List.find?_append]
    have hlast : (([(k, v)] : List (String × SentimentEntry)).find?
        fun p => p.1 = k') = none := by
      simp [List.find?, Ne.symm h]
    rw [hlast]
    cases hm : m.find? fun p => p.1 = k' <;> rfl

theorem lookup_fold_insert (k : String) :
    ∀ (l : List SentimentEntry) (m : List (String × SentimentEntry)),
      lookupKey k (l.foldl (fun m item => insertEntry m (entryKey item) item) m) =
        (match (l.filter fun e => entryKey e = k).getLast? with
          | some e => some e
          | none => lookupKey k m)
  | [], m => by simp
  | e :: rest, m => by
    rw [List.foldl_cons, lookup_fold_insert k rest]
    by_cases h : entryKey e = k
    · have hf : List.filter (fun x => decide (entryKey x = k)) (e :: rest) =
          e :: List.filter (fun x => decide (entryKey x = k)) rest := by
        simp [List.filter_cons, h]
      rw [hf]
      cases hlast : (rest.filter fun x => entryKey x = k).getLast? with
      | some x => simp [List.getLast?_cons, hlast]
      | none =>
        simp [List.getLast?_cons, hlast, h, lookup_insertEntry_self]
    · have hf : List.filter (fun x => decide (entryKey x = k)) (e :: rest) =
          List.filter (fun x => decide (entryKey x = k)) rest := by
        simp [List.filter_cons, h]
      rw [hf]
      cases hlast : (rest.filter fun x => entryKey x = k).getLast? with
      | some x => simp [hlast]
      | none =>
        simp only [hlast]
        exact lookup_insertEntry_other m (entryKey e) k e fun hc => h hc.symm

/-- C8 (amended): the combined sentiment map is last-writer-wins over the
concatenation database-entries-then-JSON-entries, so whenever the
daily-summary JSON export contains an entry for a (symbol, date) key the
combined data holds that JSON entry and any database-table entry for the
same key is discarded — the JSON export, not the database table, takes
precedence. -/
theorem combine_json_precedence :
    (∀ (jsonData dbData : List SentimentEntry) (k : String),
      lookupKey k (combineMap jsonData dbData) =
        (match ((dbData ++ jsonData).filter
            fun e => entryKey e = k).getLast? with
          | some e => some e
          | none => none)) ∧
    (∀ (jsonData dbData : List SentimentEntry) (k : String),
      (jsonData.filter fun e => entryKey e = k) ≠ [] →
      lookupKey k (combineMap jsonData dbData) =
        (jsonData.filter fun e => entryKey e = k).getLast?) := by
  have hmain : ∀ (jsonData dbData : List SentimentEntry) (k : String),
      lookupKey k (combineMap jsonData dbData) =
        (match ((dbData ++ jsonData).filter
            fun e => entryKey e = k).getLast? with
          | some e => some e
          | none => none) := by
    intro jsonData dbData k
    rw [combineMap, lookup_fold_insert k]
    cases hlast : ((dbData ++ jsonData).filter
        fun e => entryKey e = k).getLast? <;> simp [hlast, lookupKey]
  refine ⟨hmain, fun jsonData dbData k hne => ?_⟩
  rw [hmain, List.filter_append,
    List.getLast?_append_of_ne_nil _ hne]
  cases hlast : (jsonData.filter fun e => entryKey e = k).getLast? with
  | some x => rfl
  | none =>
    exact absurd (List.getLast?_eq_none_iff.mp hlast) hne

/-- The database-table entry of the counterexample. -/
def dbEntry : SentimentEntry :=
  ⟨"2024-01-05", "AAPL", 1/5, 10, 3/10, 1/5, "database"⟩

/-- The JSON summary-export entry for the same (symbol, date). -/
def jsonEntry : SentimentEntry :=
  ⟨"2024-01-05", "AAPL", 2/5, 7, 1/2, 3/5, "json"⟩

/-- C8 counterexample: when both histories contain an entry for the same
(symbol, date) pair, the code keeps the JSON daily-summary-export entry and
discards the database-table entry — the opposite of the claimed
ranking-table precedence. -/
theorem combine_precedence_counterexample :
    combineSentimentData [jsonEntry] [dbEntry] = [jsonEntry] ∧
    dbEntry ∉ combineSentimentData [jsonEntry] [dbEntry] ∧
    dbEntry ≠ jsonEntry := by
  have hne : dbEntry ≠ jsonEntry := fun hc =>
    absurd (congrArg SentimentEntry.source hc) (by decide)
  have h1 : combineSentimentData [jsonEntry] [dbEntry] = [jsonEntry] := by
    simp [combineSentimentData, combineMap, insertEntry, entryKey,
      dbEntry, jsonEntry]
  refine ⟨h1, ?_, hne⟩
  rw [h1, List.mem_singleton]
  exact hne

/-- Witness for the amended C8 at the concrete pair. -/
theorem combine_json_precedence_witness :
    lookupKey (entryKey jsonEntry) (combineMap [jsonEntry] [dbEntry]) =
      some jsonEntry := by
  have h := combine_json_precedence.2 [jsonEntry] [dbEntry]
    (entryKey jsonEntry) (by simp)
  rw [h]
  simp

end Intellivest
